import Mathlib

/-!
A shallow embedding of the organize-by-mtime utility (src/main.rs) together
with proofs about its batching, flushing, moving and error-handling
behaviour.

Modelling conventions:
- A filesystem path is modelled as its list of components.
- The filesystem is a finite map from paths to file contents together with a
  collection of directories, both kept as lists.
- A chrono NaiveDateTime is encoded as a single integer: the seconds since
  the epoch times 10 ^ 9 plus the sub-second nanoseconds.  The encoding is
  strictly monotone with respect to the lexicographic (seconds, nanoseconds)
  order used by chrono, so cmp min and cmp max on NaiveDateTime coincide
  with min and max on the encoding, and the sentinels used by the source
  (from_timestamp(1 << 40, 0) and from_timestamp(0, 0)) become the integers
  2 ^ 40 * 10 ^ 9 and 0.
- The directory walk is an input: a list of entries, each carrying the path
  exactly as yielded by walkdir (the components of the root argument
  included), its depth relative to the walk root, its kind, and the result
  of reading its modification time.  A file entry with no modification time
  models a metadata read failure, on which the source calls unwrap and
  panics; the embedding returns an error value carrying the path instead.
- Character classes of the glob crate are elided from the glob matcher
  (star, question mark and literal characters are modelled); matching is
  performed on base names only, exactly as in the source.
-/

namespace OrgMtime

/-- A filesystem path as its list of components. -/
abbrev FPath := List String

inductive IoErr
  | alreadyExists
  | notFound
  | other
deriving DecidableEq, Repr

/-- The filesystem: files as an association list from path to content, and
the set of directories. -/
structure FS where
  files : List (FPath × Nat)
  dirs : List FPath
deriving DecidableEq, Repr

def FS.fileExists (fs : FS) (p : FPath) : Bool :=
  fs.files.any (fun e => e.1 == p)

/-- All ancestor paths of a path, the path itself included: exactly what
fs::create_dir_all creates. -/
def ancestors : FPath → List FPath
  | [] => [[]]
  | c :: rest => [] :: (ancestors rest).map (fun q => c :: q)

/-- Model of fs::create_dir_all: records the directory and all of its
ancestors.  Modelled as always succeeding; no claim exercises its failure
modes. -/
def FS.createDirAll (fs : FS) (p : FPath) : FS :=
  { fs with dirs := fs.dirs ++ ancestors p }

/-- Rust Path::parent on component lists: none for the empty path,
otherwise the path without its last component. -/
def pathParent (p : FPath) : Option FPath :=
  match p with
  | [] => none
  | _ :: _ => some p.dropLast

/-- Model of fs::rename: fails when the source is not a file, otherwise
moves the content of src to dst, replacing dst when present. -/
def FS.rename (fs : FS) (src dst : FPath) : Except IoErr FS :=
  match fs.files.lookup src with
  | none => Except.error IoErr.notFound
  | some c =>
      Except.ok { fs with
        files := (dst, c) ::
          fs.files.filter (fun e => !(e.1 == src) && !(e.1 == dst)) }

/-- Embedding of move_single_file from src/main.rs: compute the parent of
the destination, create all of its missing directories, then fail when the
destination exists and force is off, otherwise rename. -/
def move_single_file (fs : FS) (src dst : FPath) (force : Bool) :
    FS × Except IoErr Unit :=
  match pathParent dst with
  | some dstparent =>
      let fs1 := fs.createDirAll dstparent
      if !force && fs1.fileExists dst then
        (fs1, Except.error IoErr.alreadyExists)
      else
        match fs1.rename src dst with
        | Except.ok fs2 => (fs2, Except.ok ())
        | Except.error e => (fs1, Except.error e)
  | none => (fs, Except.error IoErr.other)

/-- Encoded timestamp: seconds times 10 ^ 9 plus nanoseconds. -/
def tsOfParts (secs : Int) (nanos : Int) : Int :=
  secs * 1000000000 + nanos

/-- Year of an encoded timestamp, by the standard civil-from-days
computation for the proleptic Gregorian calendar used by chrono. -/
def yearOf (ts : Int) : Int :=
  let secs := Int.fdiv ts 1000000000
  let days := Int.fdiv secs 86400
  let z := days + 719468
  let era := Int.fdiv z 146097
  let doe := z - era * 146097
  let yoe :=
    Int.fdiv (doe - Int.fdiv doe 1460 + Int.fdiv doe 36524 - Int.fdiv doe 146096) 365
  let y := yoe + era * 400
  let doy := doe - (365 * yoe + Int.fdiv yoe 4 - Int.fdiv yoe 100)
  let mp := Int.fdiv (5 * doy + 2) 153
  if mp < 10 then y else y + 1

/-- The path component datetime.year().to_string(). -/
def yearComp (ts : Int) : String := toString (yearOf ts)

/-- Embedding of move_batch from src/main.rs.  Returns the new filesystem,
the printed (source, destination) pairs, and the error count.  The
batch.clear() of the source is performed by the callers of this function,
which reset the accumulator after every call. -/
def move_batch (fs : FS) (batch : List (FPath × FPath)) (datetime : Int)
    (output_dir : FPath) (force : Bool) (dry_run : Bool) :
    FS × List (FPath × FPath) × Nat :=
  match batch with
  | [] => (fs, [], 0)
  | (src, dst) :: rest =>
      let fin : FPath := output_dir ++ [yearComp datetime] ++ dst
      let step : FS × Nat :=
        if dry_run then (fs, 0)
        else
          match move_single_file fs src fin force with
          | (fs1, Except.ok _) => (fs1, 0)
          | (fs1, Except.error _) => (fs1, 1)
      let r := move_batch step.1 rest datetime output_dir force dry_run
      (r.1, (src, fin) :: r.2.1, step.2 + r.2.2)

inductive AgePolicy
  | default
  | oldest
  | newest
deriving DecidableEq, Repr

/-- Initial and post-flush value of the running batch timestamp: epoch zero
for Newest, 2 ^ 40 seconds after the epoch for Oldest and Default. -/
def sentinel : AgePolicy → Int
  | AgePolicy.newest => tsOfParts 0 0
  | _ => tsOfParts ((2 : Int) ^ (40 : Nat)) 0

/-- The per-file update of the running batch timestamp. -/
def extremeStep : AgePolicy → Int → Int → Int
  | AgePolicy.newest, a, b => max a b
  | _, a, b => min a b

/-- All suffixes of a character list, from the list itself down to the
empty list. -/
def tailsL : List Char → List (List Char)
  | [] => [[]]
  | c :: cs => (c :: cs) :: tailsL cs

/-- Shell-style glob matching on the characters of a file base name: a
star matches the rest of the pattern against some suffix, a question mark
consumes one character, anything else matches literally. -/
def globMatchL : List Char → List Char → Bool
  | [], s => s.isEmpty
  | '*' :: ps, s => (tailsL s).any (fun t => globMatchL ps t)
  | '?' :: ps, s =>
      match s with
      | [] => false
      | _ :: cs => globMatchL ps cs
  | p :: ps, s =>
      match s with
      | [] => false
      | c :: cs => p == c && globMatchL ps cs

def globMatch (pat s : String) : Bool :=
  globMatchL pat.toList s.toList

/-- The CLI configuration relevant to process_dir. -/
structure Config where
  policy : AgePolicy
  patterns : List String
  notPatterns : List String
  outputDir : FPath
  strip : Nat
  force : Bool
  dryRun : Bool
deriving DecidableEq, Repr

/-- The include patterns default to a single match-all pattern. -/
def includePatterns (cfg : Config) : List String :=
  if cfg.patterns.isEmpty then ["*"] else cfg.patterns

/-- The base name a walk entry is matched on. -/
def fileName (p : FPath) : String :=
  match p.getLast? with
  | some s => s
  | none => ""

inductive EntryKind
  | file
  | dir
  | other
deriving DecidableEq, Repr

/-- One entry yielded by the walk.  path is exactly as yielded by walkdir,
so it starts with the components of the root argument.  mtime is the
observed encoded modification time of a file entry; none models a metadata
read failure. -/
structure Entry where
  path : FPath
  depth : Nat
  kind : EntryKind
  mtime : Option Int
deriving DecidableEq, Repr

/-- A file is processed iff it matches some include pattern and no exclude
pattern, evaluated on its base name. -/
def matchedOk (cfg : Config) (e : Entry) : Bool :=
  (includePatterns cfg).any (fun p => globMatch p (fileName e.path)) &&
  ! (cfg.notPatterns.any (fun p => globMatch p (fileName e.path)))

/-- True when processing the entry hits the fs::metadata unwrap panic: a
matched file entry whose metadata cannot be read. -/
def metaFails (cfg : Config) (e : Entry) : Bool :=
  match e.kind, e.mtime with
  | EntryKind.file, none => matchedOk cfg e
  | _, _ => false

/-- Instrumentation events: one per walk entry, plus one per flush. -/
inductive Ev
  | observed (src : FPath) (dst : FPath) (mtime : Int)
  | flushed (pairs : List (FPath × FPath)) (mtimes : List Int)
      (datetime : Int) (errs : Nat)
  | skipped
deriving DecidableEq, Repr

/-- State of process_dir: the filesystem, the accumulator (curfiles and its
running datetime), the error count, the printed move lines, and the event
trace.  curmtimes is ghost bookkeeping of the mtimes of the batch members,
kept in lockstep with curfiles. -/
structure PState where
  fs : FS
  curfiles : List (FPath × FPath)
  curmtimes : List Int
  datetime : Int
  errors : Nat
  printed : List (FPath × FPath)
  trace : List Ev
deriving DecidableEq, Repr

def skipState (st : PState) : PState :=
  { st with trace := st.trace ++ [Ev.skipped] }

/-- Observing a matched file: append (path, path with its first strip
components removed) to the batch and narrow the running datetime. -/
def observeState (cfg : Config) (st : PState) (e : Entry) (m : Int) : PState :=
  { st with
    curfiles := st.curfiles ++ [(e.path, e.path.drop cfg.strip)],
    curmtimes := st.curmtimes ++ [m],
    datetime := extremeStep cfg.policy st.datetime m,
    trace := st.trace ++ [Ev.observed e.path (e.path.drop cfg.strip) m] }

/-- Flushing at a directory boundary: run move_batch, clear the batch and
reset the running datetime to the sentinel. -/
def flushState (cfg : Config) (st : PState) : PState :=
  let r := move_batch st.fs st.curfiles st.datetime cfg.outputDir cfg.force cfg.dryRun
  { fs := r.1,
    curfiles := [],
    curmtimes := [],
    datetime := sentinel cfg.policy,
    errors := st.errors + r.2.2,
    printed := st.printed ++ r.2.1,
    trace := st.trace ++ [Ev.flushed st.curfiles st.curmtimes st.datetime r.2.2] }

/-- One iteration of the walk loop of process_dir. -/
def stepEntry (cfg : Config) (st : PState) (e : Entry) : Except FPath PState :=
  match e.kind with
  | EntryKind.file =>
      if matchedOk cfg e then
        match e.mtime with
        | none => Except.error e.path
        | some m => Except.ok (observeState cfg st e m)
      else Except.ok (skipState st)
  | EntryKind.dir =>
      if e.depth ≤ 2 then Except.ok (flushState cfg st)
      else Except.ok (skipState st)
  | EntryKind.other => Except.ok (skipState st)

def processEntries (cfg : Config) (st : PState) : List Entry → Except FPath PState
  | [] => Except.ok st
  | e :: es =>
      match stepEntry cfg st e with
      | Except.ok st1 => processEntries cfg st1 es
      | Except.error p => Except.error p

def initState (cfg : Config) (fs : FS) : PState :=
  { fs := fs, curfiles := [], curmtimes := [], datetime := sentinel cfg.policy,
    errors := 0, printed := [], trace := [] }

/-- The unconditional flush after the walk; the source does not reset the
running datetime here, it just returns the error count. -/
def finalFlush (cfg : Config) (st : PState) : PState :=
  let r := move_batch st.fs st.curfiles st.datetime cfg.outputDir cfg.force cfg.dryRun
  { st with
    fs := r.1,
    curfiles := [],
    curmtimes := [],
    errors := st.errors + r.2.2,
    printed := st.printed ++ r.2.1,
    trace := st.trace ++ [Ev.flushed st.curfiles st.curmtimes st.datetime r.2.2] }

/-- Embedding of process_dir from src/main.rs, over a given walk. -/
def processDir (cfg : Config) (fs : FS) (entries : List Entry) :
    Except FPath PState :=
  match processEntries cfg (initState cfg fs) entries with
  | Except.ok st => Except.ok (finalFlush cfg st)
  | Except.error p => Except.error p

/-- Result of the embedded main: the filesystem, the error count of each
root in order, the printed move lines, the error-stream lines, and the
process exit code. -/
structure MainRes where
  fs : FS
  perRootErrors : List Nat
  printed : List (FPath × FPath)
  stderrLines : List String
  exitCode : Nat
deriving DecidableEq, Repr

def totalLine (n : Nat) : String :=
  "total errors: " ++ toString n

def runRoots (cfg : Config) (fs : FS) :
    List (List Entry) → Except FPath (FS × List Nat × List (FPath × FPath))
  | [] => Except.ok (fs, [], [])
  | es :: rest =>
      match processDir cfg fs es with
      | Except.error p => Except.error p
      | Except.ok st =>
          match runRoots cfg st.fs rest with
          | Except.error p => Except.error p
          | Except.ok (fs2, errs, pr) =>
              Except.ok (fs2, st.errors :: errs, st.printed ++ pr)

/-- Embedding of the main loop of src/main.rs: process every root in order,
sum the error counts, print the total to the error stream and exit 1 iff
the total is positive, otherwise exit 0. -/
def mainRun (cfg : Config) (fs : FS) (roots : List (List Entry)) :
    Except FPath MainRes :=
  match runRoots cfg fs roots with
  | Except.error p => Except.error p
  | Except.ok (fs2, errs, pr) =>
      Except.ok
        { fs := fs2,
          perRootErrors := errs,
          printed := pr,
          stderrLines := if 0 < errs.sum then [totalLine errs.sum] else [],
          exitCode := if 0 < errs.sum then 1 else 0 }

/-- Collapsed shapes of the trace events, used to state when flushes
happen. -/
inductive Shape
  | sObs
  | sFlush
  | sSkip
deriving DecidableEq, Repr

def evShape : Ev → Shape
  | Ev.observed _ _ _ => Shape.sObs
  | Ev.flushed _ _ _ _ => Shape.sFlush
  | Ev.skipped => Shape.sSkip

/-- The event shape the loop body produces for a given entry. -/
def entryShape (cfg : Config) (e : Entry) : Shape :=
  match e.kind with
  | EntryKind.file => if matchedOk cfg e then Shape.sObs else Shape.sSkip
  | EntryKind.dir => if e.depth ≤ 2 then Shape.sFlush else Shape.sSkip
  | EntryKind.other => Shape.sSkip

/-- The value of the running datetime determined by the batch member
mtimes. -/
def foldEx (pol : AgePolicy) (ms : List Int) : Int :=
  ms.foldl (extremeStep pol) (sentinel pol)

/-- A flush event records the fold of the sentinel through the member
mtimes as its datetime. -/
def flushGood (pol : AgePolicy) (ev : Ev) : Prop :=
  match ev with
  | Ev.flushed _ ms dt _ => dt = foldEx pol ms
  | _ => True

/-- The invariant relating batch destinations and printed lines to the
strip count. -/
def stripInv (cfg : Config) (st : PState) : Prop :=
  (∀ pr ∈ st.curfiles, pr.2 = pr.1.drop cfg.strip) ∧
  (∀ pr ∈ st.printed, ∃ dt : Int,
    pr.2 = cfg.outputDir ++ [yearComp dt] ++ pr.1.drop cfg.strip) ∧
  (∀ src rel m, Ev.observed src rel m ∈ st.trace → rel = src.drop cfg.strip)

/-- Modelled from the wording of claim C3, not from the source: the
destination obtained by removing the first strip components of the path of
the file RELATIVE TO THE WALK ROOT and appending the remainder under
outputDir and the year. -/
def specStripDest (outputDir : FPath) (year : String) (relToRoot : FPath)
    (strip : Nat) : FPath :=
  outputDir ++ [year] ++ relToRoot.drop strip

def fsEmpty : FS := { files := [], dirs := [] }

/-! Concrete inputs used by the witnesses and counterexamples below. -/

/-- Newest policy, dry run, match-all patterns. -/
def c1xCfg : Config :=
  { policy := AgePolicy.newest, patterns := [], notPatterns := [],
    outputDir := ["out"], strip := 0, force := false, dryRun := true }

/-- One matched file whose mtime is one second before the epoch. -/
def c1xEntries : List Entry :=
  [{ path := ["a", "x.txt"], depth := 1, kind := EntryKind.file,
     mtime := some (-1000000000) }]

/-- Oldest policy, dry run, match-all patterns. -/
def c1wCfg : Config :=
  { policy := AgePolicy.oldest, patterns := [], notPatterns := [],
    outputDir := ["out"], strip := 0, force := false, dryRun := true }

def c1wEntries : List Entry :=
  [{ path := ["a", "x.txt"], depth := 1, kind := EntryKind.file,
     mtime := some 5 }]

/-- The result state of running process_dir on c1wEntries. -/
def c1wSt : PState :=
  { fs := fsEmpty, curfiles := [], curmtimes := [], datetime := 5,
    errors := 0,
    printed := [(["a", "x.txt"], ["out", "1970", "a", "x.txt"])],
    trace := [Ev.observed ["a", "x.txt"] ["a", "x.txt"] 5,
              Ev.flushed [(["a", "x.txt"], ["a", "x.txt"])] [5] 5 0] }

/-- A walk with the root directory, a matched file, a shallow directory and
a deep directory. -/
def c2wEntries : List Entry :=
  [{ path := ["a"], depth := 0, kind := EntryKind.dir, mtime := none },
   { path := ["a", "x.txt"], depth := 1, kind := EntryKind.file,
     mtime := some 0 },
   { path := ["a", "b"], depth := 1, kind := EntryKind.dir, mtime := none },
   { path := ["a", "b", "c", "d"], depth := 3, kind := EntryKind.dir,
     mtime := none }]

/-- The walk of a root argument with two components, a/b, with strip 1. -/
def c3xCfg : Config :=
  { policy := AgePolicy.oldest, patterns := [], notPatterns := [],
    outputDir := ["out"], strip := 1, force := false, dryRun := true }

def c3xEntries : List Entry :=
  [{ path := ["a", "b"], depth := 0, kind := EntryKind.dir, mtime := none },
   { path := ["a", "b", "x.txt"], depth := 1, kind := EntryKind.file,
     mtime := some 0 }]

/-- The walk of the single-component root a with strip 0, the scenario of
the claim. -/
def c3wEntries : List Entry :=
  [{ path := ["a"], depth := 0, kind := EntryKind.dir, mtime := none },
   { path := ["a", "x.txt"], depth := 1, kind := EntryKind.file,
     mtime := some 0 }]

/-- The result state of running process_dir on c3wEntries under c1wCfg. -/
def c3wSt : PState :=
  { fs := fsEmpty, curfiles := [], curmtimes := [], datetime := 0,
    errors := 0,
    printed := [(["a", "x.txt"], ["out", "1970", "a", "x.txt"])],
    trace := [Ev.flushed [] [] 1099511627776000000000 0,
              Ev.observed ["a", "x.txt"] ["a", "x.txt"] 0,
              Ev.flushed [(["a", "x.txt"], ["a", "x.txt"])] [0] 0 0] }

/-- A filesystem already holding the destination o/1970/x and the source
s. -/
def c4wFS : FS :=
  { files := [(["o", "1970", "x"], 7), (["s"], 2)], dirs := [] }

/-- Oldest policy, real run (no dry run, no force). -/
def c7wCfg : Config :=
  { policy := AgePolicy.oldest, patterns := [], notPatterns := [],
    outputDir := ["out"], strip := 0, force := false, dryRun := false }

def c7wRoots : List (List Entry) :=
  [[{ path := ["a", "x.txt"], depth := 1, kind := EntryKind.file,
      mtime := some 0 }]]

/-- The result of the embedded main on c7wRoots: the single move fails
(the source file does not exist), so one error, exit code 1 and the total
printed to the error stream. -/
def c7wRes : MainRes :=
  { fs := { files := [],
            dirs := [[], ["out"], ["out", "1970"], ["out", "1970", "a"]] },
    perRootErrors := [1],
    printed := [(["a", "x.txt"], ["out", "1970", "a", "x.txt"])],
    stderrLines := ["total errors: 1"],
    exitCode := 1 }

/-- A matched file entry whose metadata read fails. -/
def c8wBad : Entry :=
  { path := ["a", "x.txt"], depth := 1, kind := EntryKind.file,
    mtime := none }

def c8wPre : List Entry :=
  [{ path := ["a"], depth := 0, kind := EntryKind.dir, mtime := none }]

/-! Helper lemmas. -/

theorem foldl_min_spec (ms : List Int) : ∀ s : Int,
    ms.foldl min s ≤ s ∧ (∀ m ∈ ms, ms.foldl min s ≤ m) ∧
      (ms.foldl min s = s ∨ ms.foldl min s ∈ ms) := by
  induction ms with
  | nil =>
      intro s
      refine ⟨le_refl s, ?_, Or.inl rfl⟩
      intro m hm
      simp at hm
  | cons a t ih =>
      intro s
      rw [List.foldl_cons]
      obtain ⟨h1, h2, h3⟩ := ih (min s a)
      refine ⟨le_trans h1 (min_le_left s a), ?_, ?_⟩
      · intro m hm
        rcases List.mem_cons.mp hm with hm | hm
        · subst hm
          exact le_trans h1 (min_le_right s m)
        · exact h2 m hm
      · rcases h3 with h3 | h3
        · rcases le_total s a with hsa | has
          · exact Or.inl (by rw [h3, min_eq_left hsa])
          · refine Or.inr ?_
            rw [h3, min_eq_right has]
            exact List.mem_cons_self a t
        · exact Or.inr (List.mem_cons_of_mem a h3)

theorem foldl_max_spec (ms : List Int) : ∀ s : Int,
    s ≤ ms.foldl max s ∧ (∀ m ∈ ms, m ≤ ms.foldl max s) ∧
      (ms.foldl max s = s ∨ ms.foldl max s ∈ ms) := by
  induction ms with
  | nil =>
      intro s
      refine ⟨le_refl s, ?_, Or.inl rfl⟩
      intro m hm
      simp at hm
  | cons a t ih =>
      intro s
      rw [List.foldl_cons]
      obtain ⟨h1, h2, h3⟩ := ih (max s a)
      refine ⟨le_trans (le_max_left s a) h1, ?_, ?_⟩
      · intro m hm
        rcases List.mem_cons.mp hm with hm | hm
        · subst hm
          exact le_trans (le_max_right s m) h1
        · exact h2 m hm
      · rcases h3 with h3 | h3
        · rcases le_total a s with has | hsa
          · exact Or.inl (by rw [h3, max_eq_left has])
          · refine Or.inr ?_
            rw [h3, max_eq_right hsa]
            exact List.mem_cons_self a t
        · exact Or.inr (List.mem_cons_of_mem a h3)

theorem foldl_min_eq_min (ms : List Int) (s : Int) (hne : ms ≠ [])
    (hb : ∀ m ∈ ms, m ≤ s) :
    ms.foldl min s ∈ ms ∧ ∀ m ∈ ms, ms.foldl min s ≤ m := by
  obtain ⟨_, h2, h3⟩ := foldl_min_spec ms s
  refine ⟨?_, h2⟩
  rcases h3 with h3 | h3
  · obtain ⟨m0, hm0⟩ := List.exists_mem_of_ne_nil ms hne
    have heq : m0 = ms.foldl min s :=
      le_antisymm (by rw [h3]; exact hb m0 hm0) (h2 m0 hm0)
    rw [← heq]
    exact hm0
  · exact h3

theorem foldl_max_eq_max (ms : List Int) (s : Int) (hne : ms ≠ [])
    (hb : ∀ m ∈ ms, s ≤ m) :
    ms.foldl max s ∈ ms ∧ ∀ m ∈ ms, m ≤ ms.foldl max s := by
  obtain ⟨_, h2, h3⟩ := foldl_max_spec ms s
  refine ⟨?_, h2⟩
  rcases h3 with h3 | h3
  · obtain ⟨m0, hm0⟩ := List.exists_mem_of_ne_nil ms hne
    have heq : m0 = ms.foldl max s :=
      le_antisymm (h2 m0 hm0) (by rw [h3]; exact hb m0 hm0)
    rw [← heq]
    exact hm0
  · exact h3

theorem foldEx_oldest (ms : List Int) :
    foldEx AgePolicy.oldest ms = ms.foldl min (sentinel AgePolicy.oldest) := rfl

theorem foldEx_dflt (ms : List Int) :
    foldEx AgePolicy.default ms = ms.foldl min (sentinel AgePolicy.oldest) := rfl

theorem foldEx_newest (ms : List Int) :
    foldEx AgePolicy.newest ms = ms.foldl max (sentinel AgePolicy.newest) := rfl

theorem pathParent_of_ne_nil (p : FPath) (h : p ≠ []) :
    pathParent p = some p.dropLast := by
  cases p with
  | nil => exact absurd rfl h
  | cons a q => rfl

/-! Case lemmas for one loop iteration. -/

theorem stepEntry_file_skip (cfg : Config) (st : PState) (e : Entry)
    (hk : e.kind = EntryKind.file) (hm : matchedOk cfg e = false) :
    stepEntry cfg st e = Except.ok (skipState st) := by
  simp [stepEntry, hk, hm]

theorem stepEntry_file_obs (cfg : Config) (st : PState) (e : Entry) (m : Int)
    (hk : e.kind = EntryKind.file) (hm : matchedOk cfg e = true)
    (hmt : e.mtime = some m) :
    stepEntry cfg st e = Except.ok (observeState cfg st e m) := by
  simp [stepEntry, hk, hm, hmt]

theorem stepEntry_file_panic (cfg : Config) (st : PState) (e : Entry)
    (hk : e.kind = EntryKind.file) (hm : matchedOk cfg e = true)
    (hmt : e.mtime = none) :
    stepEntry cfg st e = Except.error e.path := by
  simp [stepEntry, hk, hm, hmt]

theorem stepEntry_dir_flush (cfg : Config) (st : PState) (e : Entry)
    (hk : e.kind = EntryKind.dir) (hd : e.depth ≤ 2) :
    stepEntry cfg st e = Except.ok (flushState cfg st) := by
  simp [stepEntry, hk, hd]

theorem stepEntry_dir_deep (cfg : Config) (st : PState) (e : Entry)
    (hk : e.kind = EntryKind.dir) (hd : ¬ e.depth ≤ 2) :
    stepEntry cfg st e = Except.ok (skipState st) := by
  simp [stepEntry, hk, hd]

theorem stepEntry_other (cfg : Config) (st : PState) (e : Entry)
    (hk : e.kind = EntryKind.other) :
    stepEntry cfg st e = Except.ok (skipState st) := by
  simp [stepEntry, hk]

/-- Inversion: a successful loop iteration is a skip, a flush at a shallow
directory, or an observation of a matched file, and the entry shape tells
which. -/
theorem stepEntry_ok_shape (cfg : Config) (st st1 : PState) (e : Entry)
    (h : stepEntry cfg st e = Except.ok st1) :
    (st1 = skipState st ∧ entryShape cfg e = Shape.sSkip) ∨
    (st1 = flushState cfg st ∧ entryShape cfg e = Shape.sFlush) ∨
    (∃ m, e.mtime = some m ∧ st1 = observeState cfg st e m ∧
      entryShape cfg e = Shape.sObs) := by
  cases hk : e.kind
  case file =>
    cases hm : matchedOk cfg e
    case false =>
      rw [stepEntry_file_skip cfg st e hk hm] at h
      injection h with h2
      exact Or.inl ⟨h2.symm, by simp [entryShape, hk, hm]⟩
    case true =>
      cases hmt : e.mtime
      case none =>
        rw [stepEntry_file_panic cfg st e hk hm hmt] at h
        exact Except.noConfusion h
      case some m =>
        rw [stepEntry_file_obs cfg st e m hk hm hmt] at h
        injection h with h2
        exact Or.inr (Or.inr ⟨m, rfl, h2.symm, by simp [entryShape, hk, hm]⟩)
  case dir =>
    by_cases hd : e.depth ≤ 2
    · rw [stepEntry_dir_flush cfg st e hk hd] at h
      injection h with h2
      exact Or.inr (Or.inl ⟨h2.symm, by simp [entryShape, hk, hd]⟩)
    · rw [stepEntry_dir_deep cfg st e hk hd] at h
      injection h with h2
      exact Or.inl ⟨h2.symm, by simp [entryShape, hk, hd]⟩
  case other =>
    rw [stepEntry_other cfg st e hk] at h
    injection h with h2
    exact Or.inl ⟨h2.symm, by simp [entryShape, hk]⟩

/-- The loop body only fails on a matched file with unreadable metadata. -/
theorem stepEntry_ok_of_no_fail (cfg : Config) (st : PState) (e : Entry)
    (h : metaFails cfg e = false) :
    ∃ st1, stepEntry cfg st e = Except.ok st1 := by
  cases hk : e.kind
  case file =>
    cases hm : matchedOk cfg e
    case false => exact ⟨_, stepEntry_file_skip cfg st e hk hm⟩
    case true =>
      cases hmt : e.mtime
      case none =>
        exfalso
        simp [metaFails, hk, hmt, hm] at h
      case some m => exact ⟨_, stepEntry_file_obs cfg st e m hk hm hmt⟩
  case dir =>
    by_cases hd : e.depth ≤ 2
    · exact ⟨_, stepEntry_dir_flush cfg st e hk hd⟩
    · exact ⟨_, stepEntry_dir_deep cfg st e hk hd⟩
  case other => exact ⟨_, stepEntry_other cfg st e hk⟩

theorem skipState_traceShape (st : PState) :
    (skipState st).trace.map evShape =
      st.trace.map evShape ++ [Shape.sSkip] := by
  simp [skipState, evShape]

theorem flushState_traceShape (cfg : Config) (st : PState) :
    (flushState cfg st).trace.map evShape =
      st.trace.map evShape ++ [Shape.sFlush] := by
  simp [flushState, evShape]

theorem observeState_traceShape (cfg : Config) (st : PState) (e : Entry)
    (m : Int) :
    (observeState cfg st e m).trace.map evShape =
      st.trace.map evShape ++ [Shape.sObs] := by
  simp [observeState, evShape]

/-- The printed lines of a move_batch call are exactly the batch members,
each with its destination under output_dir and the year of the batch
datetime. -/
theorem move_batch_printed (batch : List (FPath × FPath)) :
    ∀ (fs : FS) (dt : Int) (out : FPath) (force dry : Bool),
    (move_batch fs batch dt out force dry).2.1 =
      batch.map (fun pr => (pr.1, out ++ [yearComp dt] ++ pr.2)) := by
  induction batch with
  | nil => intro fs dt out force dry; rfl
  | cons hd tl ih =>
      intro fs dt out force dry
      obtain ⟨s, d⟩ := hd
      simp [move_batch, ih]

/-- One loop iteration preserves the datetime invariant and the
correctness of the flush events it records. -/
theorem stepEntry_dtInv (cfg : Config) (st st1 : PState) (e : Entry)
    (h : stepEntry cfg st e = Except.ok st1)
    (h1 : st.datetime = foldEx cfg.policy st.curmtimes)
    (h2 : ∀ ev ∈ st.trace, flushGood cfg.policy ev) :
    st1.datetime = foldEx cfg.policy st1.curmtimes ∧
      ∀ ev ∈ st1.trace, flushGood cfg.policy ev := by
  rcases stepEntry_ok_shape cfg st st1 e h with ⟨he, _⟩ | ⟨he, _⟩ | ⟨m, _, he, _⟩ <;>
    subst he
  · refine ⟨h1, ?_⟩
    intro ev hev
    simp only [skipState] at hev
    rcases List.mem_append.mp hev with hev | hev
    · exact h2 ev hev
    · simp at hev
      subst hev
      simp [flushGood]
  · constructor
    · simp [flushState, foldEx]
    · intro ev hev
      simp only [flushState] at hev
      rcases List.mem_append.mp hev with hev | hev
      · exact h2 ev hev
      · simp at hev
        subst hev
        simpa [flushGood] using h1
  · constructor
    · simp [observeState, foldEx, List.foldl_append, h1]
    · intro ev hev
      simp only [observeState] at hev
      rcases List.mem_append.mp hev with hev | hev
      · exact h2 ev hev
      · simp at hev
        subst hev
        simp [flushGood]

theorem processEntries_dtInv (cfg : Config) :
    ∀ (es : List Entry) (st st1 : PState),
    processEntries cfg st es = Except.ok st1 →
    st.datetime = foldEx cfg.policy st.curmtimes →
    (∀ ev ∈ st.trace, flushGood cfg.policy ev) →
    st1.datetime = foldEx cfg.policy st1.curmtimes ∧
      ∀ ev ∈ st1.trace, flushGood cfg.policy ev := by
  intro es
  induction es with
  | nil =>
      intro st st1 h h1 h2
      simp [processEntries] at h
      subst h
      exact ⟨h1, h2⟩
  | cons e t ih =>
      intro st st1 h h1 h2
      cases hstep : stepEntry cfg st e with
      | ok st2 =>
          have hrest : processEntries cfg st2 t = Except.ok st1 := by
            simpa [processEntries, hstep] using h
          obtain ⟨g1, g2⟩ := stepEntry_dtInv cfg st st2 e hstep h1 h2
          exact ih st2 st1 hrest g1 g2
      | error p =>
          simp [processEntries, hstep] at h

/-- Every flush event recorded by process_dir, the final one included,
carries the fold of the sentinel through its member mtimes. -/
theorem processDir_dtInv (cfg : Config) (fs : FS) (entries : List Entry)
    (st : PState) (h : processDir cfg fs entries = Except.ok st) :
    ∀ ev ∈ st.trace, flushGood cfg.policy ev := by
  unfold processDir at h
  cases hrun : processEntries cfg (initState cfg fs) entries with
  | error p =>
      rw [hrun] at h
      exact Except.noConfusion h
  | ok st0 =>
      rw [hrun] at h
      injection h with h2
      subst h2
      have hinit1 : (initState cfg fs).datetime =
          foldEx cfg.policy (initState cfg fs).curmtimes := by
        simp [initState, foldEx]
      have hinit2 : ∀ ev ∈ (initState cfg fs).trace, flushGood cfg.policy ev := by
        simp [initState]
      obtain ⟨g1, g2⟩ :=
        processEntries_dtInv cfg entries (initState cfg fs) st0 hrun hinit1 hinit2
      intro ev hev
      simp only [finalFlush] at hev
      rcases List.mem_append.mp hev with hev | hev
      · exact g2 ev hev
      · simp at hev
        subst hev
        simpa [flushGood] using g1

/-- One loop iteration preserves the strip invariant. -/
theorem stepEntry_stripInv (cfg : Config) (st st1 : PState) (e : Entry)
    (h : stepEntry cfg st e = Except.ok st1) (hi : stripInv cfg st) :
    stripInv cfg st1 := by
  obtain ⟨h1, h2, h3⟩ := hi
  rcases stepEntry_ok_shape cfg st st1 e h with ⟨he, _⟩ | ⟨he, _⟩ | ⟨m, _, he, _⟩ <;>
    subst he
  · refine ⟨h1, h2, ?_⟩
    intro src rel m hmem
    simp only [skipState] at hmem
    rcases List.mem_append.mp hmem with hmem | hmem
    · exact h3 src rel m hmem
    · simp at hmem
  · refine ⟨by simp [flushState], ?_, ?_⟩
    · intro pr hmem
      simp only [flushState] at hmem
      rcases List.mem_append.mp hmem with hmem | hmem
      · exact h2 pr hmem
      · rw [move_batch_printed] at hmem
        obtain ⟨q, hq, hqe⟩ := List.mem_map.mp hmem
        refine ⟨st.datetime, ?_⟩
        rw [← hqe]
        simp only []
        rw [h1 q hq]
    · intro src rel m hmem
      simp only [flushState] at hmem
      rcases List.mem_append.mp hmem with hmem | hmem
      · exact h3 src rel m hmem
      · simp at hmem
  · refine ⟨?_, h2, ?_⟩
    · intro pr hmem
      simp only [observeState] at hmem
      rcases List.mem_append.mp hmem with hmem | hmem
      · exact h1 pr hmem
      · simp at hmem
        subst hmem
        rfl
    · intro src rel m2 hmem
      simp only [observeState] at hmem
      rcases List.mem_append.mp hmem with hmem | hmem
      · exact h3 src rel m2 hmem
      · simp at hmem
        obtain ⟨hs, hr, _⟩ := hmem
        subst hs
        exact hr

theorem processEntries_stripInv (cfg : Config) :
    ∀ (es : List Entry) (st st1 : PState),
    processEntries cfg st es = Except.ok st1 →
    stripInv cfg st → stripInv cfg st1 := by
  intro es
  induction es with
  | nil =>
      intro st st1 h hi
      simp [processEntries] at h
      subst h
      exact hi
  | cons e t ih =>
      intro st st1 h hi
      cases hstep : stepEntry cfg st e with
      | ok st2 =>
          have hrest : processEntries cfg st2 t = Except.ok st1 := by
            simpa [processEntries, hstep] using h
          exact ih st2 st1 hrest (stepEntry_stripInv cfg st st2 e hstep hi)
      | error p =>
          simp [processEntries, hstep] at h

/-- The strip invariant holds of the final state of process_dir. -/
theorem processDir_stripInv (cfg : Config) (fs : FS) (entries : List Entry)
    (st : PState) (h : processDir cfg fs entries = Except.ok st) :
    stripInv cfg st := by
  unfold processDir at h
  cases hrun : processEntries cfg (initState cfg fs) entries with
  | error p =>
      rw [hrun] at h
      exact Except.noConfusion h
  | ok st0 =>
      rw [hrun] at h
      injection h with h2
      subst h2
      have hinit : stripInv cfg (initState cfg fs) := by
        refine ⟨?_, ?_, ?_⟩ <;> simp [initState]
      obtain ⟨g1, g2, g3⟩ :=
        processEntries_stripInv cfg entries (initState cfg fs) st0 hrun hinit
      refine ⟨by simp [finalFlush], ?_, ?_⟩
      · intro pr hmem
        simp only [finalFlush] at hmem
        rcases List.mem_append.mp hmem with hmem | hmem
        · exact g2 pr hmem
        · rw [move_batch_printed] at hmem
          obtain ⟨q, hq, hqe⟩ := List.mem_map.mp hmem
          refine ⟨st0.datetime, ?_⟩
          rw [← hqe]
          simp only []
          rw [g1 q hq]
      · intro src rel m hmem
        simp only [finalFlush] at hmem
        rcases List.mem_append.mp hmem with hmem | hmem
        · exact g3 src rel m hmem
        · simp at hmem

/-- Over a failure-free walk, the trace of process_dir has exactly one
event per entry, of the shape determined by that entry, followed by the one
final flush. -/
theorem processEntries_shape (cfg : Config) :
    ∀ (es : List Entry) (st : PState),
    (∀ e ∈ es, metaFails cfg e = false) →
    ∃ st1, processEntries cfg st es = Except.ok st1 ∧
      st1.trace.map evShape = st.trace.map evShape ++ es.map (entryShape cfg) := by
  intro es
  induction es with
  | nil =>
      intro st _
      exact ⟨st, rfl, by simp⟩
  | cons e t ih =>
      intro st hno
      obtain ⟨st2, hstep⟩ :=
        stepEntry_ok_of_no_fail cfg st e (hno e (List.mem_cons_self e t))
      have hnt : ∀ x ∈ t, metaFails cfg x = false :=
        fun x hx => hno x (List.mem_cons_of_mem e hx)
      obtain ⟨st1, hrest, htr⟩ := ih st2 hnt
      refine ⟨st1, by simp [processEntries, hstep, hrest], ?_⟩
      rcases stepEntry_ok_shape cfg st st2 e hstep with ⟨he, hs⟩ | ⟨he, hs⟩ | ⟨m, _, he, hs⟩ <;>
        subst he <;>
        rw [htr] <;>
        simp [skipState_traceShape, flushState_traceShape,
          observeState_traceShape, hs]

set_option linter.unnecessarySeqFocus false in
/-- A matched file with unreadable metadata aborts the walk at once, with
the failing path; nothing after it is processed. -/
theorem processEntries_panic (cfg : Config) :
    ∀ (pre : List Entry) (st : PState) (e : Entry) (post : List Entry),
    (∀ x ∈ pre, metaFails cfg x = false) →
    metaFails cfg e = true →
    processEntries cfg st (pre ++ e :: post) = Except.error e.path := by
  intro pre
  induction pre with
  | nil =>
      intro st e post _ hf
      have h3 : e.kind = EntryKind.file ∧ e.mtime = none ∧
          matchedOk cfg e = true := by
        cases hk2 : e.kind <;> cases hmt2 : e.mtime <;>
          simp [metaFails, hk2, hmt2] at hf ⊢ <;> exact hf
      obtain ⟨hk, hmt, hm⟩ := h3
      simp [processEntries, stepEntry_file_panic cfg st e hk hm hmt]
  | cons x pre ih =>
      intro st e post hpre hf
      obtain ⟨st2, hstep⟩ :=
        stepEntry_ok_of_no_fail cfg st x (hpre x (List.mem_cons_self x pre))
      have hpre2 : ∀ y ∈ pre, metaFails cfg y = false :=
        fun y hy => hpre y (List.mem_cons_of_mem x hy)
      have hrec := ih st2 e post hpre2 hf
      simp [processEntries, hstep, hrec]

/-- Every root contributes exactly one error count to the per-root list. -/
theorem runRoots_length (cfg : Config) :
    ∀ (roots : List (List Entry)) (fs fs2 : FS) (errs : List Nat)
      (pr : List (FPath × FPath)),
    runRoots cfg fs roots = Except.ok (fs2, errs, pr) →
    errs.length = roots.length := by
  intro roots
  induction roots with
  | nil =>
      intro fs fs2 errs pr h
      simp [runRoots] at h
      obtain ⟨-, h2, -⟩ := h
      simp [h2]
  | cons es rest ih =>
      intro fs fs2 errs pr h
      cases h1 : processDir cfg fs es with
      | error p =>
          simp [runRoots, h1] at h
      | ok st =>
          cases h2 : runRoots cfg st.fs rest with
          | error p =>
              simp [runRoots, h1, h2] at h
          | ok trip =>
              obtain ⟨fs3, errs3, pr3⟩ := trip
              have h4 : fs3 = fs2 ∧ st.errors :: errs3 = errs ∧
                  st.printed ++ pr3 = pr := by
                simpa [runRoots, h1, h2] using h
              obtain ⟨-, h5, -⟩ := h4
              rw [← h5]
              simp [ih st.fs fs3 errs3 pr3 h2]

/-- Without force, a single-file move onto an existing destination creates
the destination parent chain and then fails with the already-exists
error. -/
theorem move_single_file_conflict (fs : FS) (src dst : FPath)
    (hne : dst ≠ []) (hex : fs.fileExists dst = true) :
    move_single_file fs src dst false =
      (fs.createDirAll dst.dropLast, Except.error IoErr.alreadyExists) := by
  have hpp := pathParent_of_ne_nil dst hne
  have hex2 : (fs.createDirAll dst.dropLast).fileExists dst = true := hex
  simp [move_single_file, hpp, hex2]

/-! The claims. -/

/-- C10: flushing an empty batch is a no-op: it prints nothing, attempts
no moves, leaves the filesystem unchanged and returns an error count of
zero, for every datetime (hence every policy), force setting and dry-run
setting. -/
theorem c10_empty_flush_noop (fs : FS) (dt : Int) (out : FPath)
    (force dry : Bool) :
    move_batch fs [] dt out force dry = (fs, [], 0) := rfl

/-- C5: in dry-run mode, flushing any batch performs no filesystem
mutation, still prints every intended (source, destination) pair, and
always returns an error count of zero. -/
theorem c5_dry_run_flush_pure (fs : FS) (batch : List (FPath × FPath))
    (dt : Int) (out : FPath) (force : Bool) :
    move_batch fs batch dt out force true =
      (fs, batch.map (fun pr => (pr.1, out ++ [yearComp dt] ++ pr.2)), 0) := by
  induction batch generalizing fs with
  | nil => rfl
  | cons hd tl ih =>
      obtain ⟨s, d⟩ := hd
      simp [move_batch, ih]

/-- C4: moving a batch whose first pending move has an already-existing
destination, without force and outside dry-run, records exactly one error
for that entry and continues with the rest of the batch from a filesystem
whose files are unchanged (the destination is untouched and the source is
not removed; only the destination parent directories were added). -/
theorem c4_conflict_error_and_continue (fs : FS) (src rel : FPath)
    (rest : List (FPath × FPath)) (dt : Int) (out : FPath)
    (hex : fs.fileExists (out ++ [yearComp dt] ++ rel) = true) :
    move_batch fs ((src, rel) :: rest) dt out false false =
      ((move_batch (fs.createDirAll ((out ++ [yearComp dt] ++ rel).dropLast))
          rest dt out false false).1,
       (src, out ++ [yearComp dt] ++ rel) ::
         (move_batch (fs.createDirAll ((out ++ [yearComp dt] ++ rel).dropLast))
           rest dt out false false).2.1,
       1 + (move_batch (fs.createDirAll ((out ++ [yearComp dt] ++ rel).dropLast))
           rest dt out false false).2.2) ∧
    (fs.createDirAll ((out ++ [yearComp dt] ++ rel).dropLast)).files = fs.files := by
  refine ⟨?_, rfl⟩
  have hstep := move_single_file_conflict fs src (out ++ [yearComp dt] ++ rel)
    (by simp) hex
  simp at hstep
  simp [move_batch, hstep]

/-- C9: when a single-file move is attempted without force and the
destination already exists, the missing parent directories of the
destination are still created before the conflict is detected: the
returned filesystem is exactly the input with the parent chain added, the
files are untouched, and the error is the already-exists error. -/
theorem c9_dirs_created_before_conflict_check (fs : FS) (src dst : FPath)
    (hne : dst ≠ []) (hex : fs.fileExists dst = true) :
    move_single_file fs src dst false =
      (fs.createDirAll dst.dropLast, Except.error IoErr.alreadyExists) ∧
    (∀ q ∈ ancestors dst.dropLast, q ∈ (fs.createDirAll dst.dropLast).dirs) ∧
    (fs.createDirAll dst.dropLast).files = fs.files := by
  refine ⟨?_, ?_, rfl⟩
  · have hpp := pathParent_of_ne_nil dst hne
    have hex2 : (fs.createDirAll dst.dropLast).fileExists dst = true := hex
    simp [move_single_file, hpp, hex2]
  · intro q hq
    simp [FS.createDirAll, hq]

/-- C2: over a failure-free walk of a root, the batch is flushed exactly
when a directory entry of depth at most 2 is encountered, plus once
unconditionally after the walk completes: the trace of process_dir carries
exactly one event per entry, whose shape is a flush precisely for the
shallow directory entries, followed by one final flush event; the shape of
a file entry is never a flush. -/
theorem c2_flush_at_shallow_dirs (cfg : Config) (fs : FS)
    (entries : List Entry)
    (h : ∀ e ∈ entries, metaFails cfg e = false) :
    ∃ st, processDir cfg fs entries = Except.ok st ∧
      st.trace.map evShape = entries.map (entryShape cfg) ++ [Shape.sFlush] ∧
      (∀ e : Entry, e.kind = EntryKind.dir → e.depth ≤ 2 →
        entryShape cfg e = Shape.sFlush) ∧
      (∀ e : Entry, e.kind = EntryKind.dir → ¬ e.depth ≤ 2 →
        entryShape cfg e = Shape.sSkip) ∧
      (∀ e : Entry, e.kind = EntryKind.file →
        entryShape cfg e ≠ Shape.sFlush) := by
  obtain ⟨st0, hrun, htr⟩ := processEntries_shape cfg entries (initState cfg fs) h
  refine ⟨finalFlush cfg st0, by simp [processDir, hrun], ?_, ?_, ?_, ?_⟩
  · have hff : (finalFlush cfg st0).trace.map evShape =
        st0.trace.map evShape ++ [Shape.sFlush] := by
      simp [finalFlush, evShape]
    rw [hff, htr]
    simp [initState]
  · intro e hk hd
    simp [entryShape, hk, hd]
  · intro e hk hd
    simp [entryShape, hk, hd]
  · intro e hk
    cases hm : matchedOk cfg e <;> simp [entryShape, hk, hm]

/-- C2 witness: the walk of root a containing the root directory, one
matched file, one shallow directory and one deep directory. -/
theorem c2_flush_witness :
    (∀ e ∈ c2wEntries, metaFails c1wCfg e = false) ∧
    (∃ st, processDir c1wCfg fsEmpty c2wEntries = Except.ok st ∧
      st.trace.map evShape = c2wEntries.map (entryShape c1wCfg) ++ [Shape.sFlush] ∧
      (∀ e : Entry, e.kind = EntryKind.dir → e.depth ≤ 2 →
        entryShape c1wCfg e = Shape.sFlush) ∧
      (∀ e : Entry, e.kind = EntryKind.dir → ¬ e.depth ≤ 2 →
        entryShape c1wCfg e = Shape.sSkip) ∧
      (∀ e : Entry, e.kind = EntryKind.file →
        entryShape c1wCfg e ≠ Shape.sFlush)) :=
  ⟨by decide, c2_flush_at_shallow_dirs c1wCfg fsEmpty c2wEntries (by decide)⟩

/-- C8: if the metadata of a matched file cannot be read, process_dir
aborts immediately with that path: the result is the abort value, not a
state, so the failure is not a per-file skip and is not counted as a move
error, and no later entry is processed. -/
theorem c8_metadata_failure_aborts (cfg : Config) (fs : FS)
    (pre : List Entry) (e : Entry) (post : List Entry)
    (hpre : ∀ x ∈ pre, metaFails cfg x = false)
    (hf : metaFails cfg e = true) :
    processDir cfg fs (pre ++ e :: post) = Except.error e.path := by
  have h := processEntries_panic cfg pre (initState cfg fs) e post hpre hf
  simp [processDir, h]

/-- C8 witness: a walk whose second entry is a matched file with
unreadable metadata aborts with that path. -/
theorem c8_metadata_witness :
    (∀ x ∈ c8wPre, metaFails c1wCfg x = false) ∧
    metaFails c1wCfg c8wBad = true ∧
    processDir c1wCfg fsEmpty (c8wPre ++ c8wBad :: []) =
      Except.error c8wBad.path :=
  ⟨by decide, by decide,
    c8_metadata_failure_aborts c1wCfg fsEmpty c8wPre c8wBad [] (by decide)
      (by decide)⟩

/-- C1 counterexample: under the Newest policy, a batch containing one
file whose mtime is one second before the epoch flushes with datetime 0,
the sentinel, and not with the maximum member mtime -10^9: the claimed
representative is not among (hence not the maximum of) the member
mtimes. -/
theorem c1_counterexample :
    (processDir c1xCfg fsEmpty c1xEntries).map PState.trace =
      Except.ok [Ev.observed ["a", "x.txt"] ["a", "x.txt"] (-1000000000),
                 Ev.flushed [(["a", "x.txt"], ["a", "x.txt"])]
                   [-1000000000] 0 0] ∧
    ¬ ((0 : Int) ∈ [(-1000000000 : Int)]) := by
  exact ⟨rfl, by decide⟩

/-- C1 as amended: at every flush of a non-empty batch the recorded
datetime is the minimum of the member mtimes under the Oldest or Default
policy provided no member mtime exceeds the far-future sentinel, and the
maximum under the Newest policy provided no member mtime precedes the
epoch.  Without those bounds the sentinel itself can win the fold, as the
counterexample shows. -/
theorem c1_extreme_within_sentinel_bounds (cfg : Config) (fs : FS)
    (entries : List Entry) (st : PState) (pairs : List (FPath × FPath))
    (ms : List Int) (dt : Int) (er : Nat)
    (hrun : processDir cfg fs entries = Except.ok st)
    (hmem : Ev.flushed pairs ms dt er ∈ st.trace)
    (hne : ms ≠ []) :
    ((cfg.policy = AgePolicy.oldest ∨ cfg.policy = AgePolicy.default) →
      (∀ m ∈ ms, m ≤ sentinel AgePolicy.oldest) →
      dt ∈ ms ∧ ∀ m ∈ ms, dt ≤ m) ∧
    (cfg.policy = AgePolicy.newest →
      (∀ m ∈ ms, sentinel AgePolicy.newest ≤ m) →
      dt ∈ ms ∧ ∀ m ∈ ms, m ≤ dt) := by
  have hgood := processDir_dtInv cfg fs entries st hrun
    (Ev.flushed pairs ms dt er) hmem
  simp only [flushGood] at hgood
  constructor
  · intro hp hb
    rcases hp with hp | hp
    · rw [hp] at hgood
      rw [foldEx_oldest] at hgood
      rw [hgood]
      exact foldl_min_eq_min ms (sentinel AgePolicy.oldest) hne hb
    · rw [hp] at hgood
      rw [foldEx_dflt] at hgood
      rw [hgood]
      exact foldl_min_eq_min ms (sentinel AgePolicy.oldest) hne hb
  · intro hp hb
    rw [hp] at hgood
    rw [foldEx_newest] at hgood
    rw [hgood]
    exact foldl_max_eq_max ms (sentinel AgePolicy.newest) hne hb

/-- C1 witness: a run under the Oldest policy with one member mtime 5
flushes with datetime 5, the minimum of the members. -/
theorem c1_extreme_witness :
    (processDir c1wCfg fsEmpty c1wEntries = Except.ok c1wSt ∧
     Ev.flushed [(["a", "x.txt"], ["a", "x.txt"])] [5] 5 0 ∈ c1wSt.trace ∧
     ([(5 : Int)] ≠ [])) ∧
    (((c1wCfg.policy = AgePolicy.oldest ∨ c1wCfg.policy = AgePolicy.default) →
        (∀ m ∈ [(5 : Int)], m ≤ sentinel AgePolicy.oldest) →
        (5 : Int) ∈ [(5 : Int)] ∧ ∀ m ∈ [(5 : Int)], (5 : Int) ≤ m) ∧
      (c1wCfg.policy = AgePolicy.newest →
        (∀ m ∈ [(5 : Int)], sentinel AgePolicy.newest ≤ m) →
        (5 : Int) ∈ [(5 : Int)] ∧ ∀ m ∈ [(5 : Int)], m ≤ (5 : Int))) :=
  ⟨⟨rfl, by decide, by decide⟩,
    c1_extreme_within_sentinel_bounds c1wCfg fsEmpty c1wEntries c1wSt
      [(["a", "x.txt"], ["a", "x.txt"])] [5] 5 0 rfl (by decide)
      (by decide)⟩

/-- C3 counterexample: for the walk of the two-component root a/b with
strip 1, the file a/b/x.txt is printed with destination out/1970/b/x.txt,
because the source drops components of the full walk path; dropping one
component of the path relative to the walk root, x.txt, as the claim
states, would give out/1970 instead, and the two destinations differ.
With strip 0 the same run keeps the entire walk path, root components
included, rather than only the path relative to the root. -/
theorem c3_counterexample :
    (processDir c3xCfg fsEmpty c3xEntries).map PState.printed =
      Except.ok [(["a", "b", "x.txt"], ["out", "1970", "b", "x.txt"])] ∧
    specStripDest ["out"] "1970" ["x.txt"] 1 = (["out", "1970"] : FPath) ∧
    (["out", "1970", "b", "x.txt"] : FPath) ≠ (["out", "1970"] : FPath) := by
  exact ⟨rfl, by decide, by decide⟩

/-- C3 as amended: strip removes the first N components of the path
exactly as yielded by the walk, which begins with the components of the
root argument itself; every observed file records (path, path.drop N) as
its pending move, and every printed destination is the output directory,
followed by a year component, followed by the source path with its first N
components removed.  In particular, with a single-component root a and
strip 0, a/x.txt lands under out/year/a/x.txt, as in the claim scenario. -/
theorem c3_strip_full_walk_path (cfg : Config) (fs : FS)
    (entries : List Entry) (st : PState)
    (hrun : processDir cfg fs entries = Except.ok st) :
    (∀ src rel m, Ev.observed src rel m ∈ st.trace →
      rel = src.drop cfg.strip) ∧
    (∀ pr ∈ st.printed, ∃ dt : Int,
      pr.2 = cfg.outputDir ++ [yearComp dt] ++ pr.1.drop cfg.strip) := by
  have hinv := processDir_stripInv cfg fs entries st hrun
  exact ⟨hinv.2.2, hinv.2.1⟩

/-- C3 witness: the claim scenario itself, root a with strip 0, where
a/x.txt is printed with destination out/1970/a/x.txt. -/
theorem c3_strip_witness :
    processDir c1wCfg fsEmpty c3wEntries = Except.ok c3wSt ∧
    ((∀ src rel m, Ev.observed src rel m ∈ c3wSt.trace →
        rel = src.drop c1wCfg.strip) ∧
     (∀ pr ∈ c3wSt.printed, ∃ dt : Int,
        pr.2 = c1wCfg.outputDir ++ [yearComp dt] ++ pr.1.drop c1wCfg.strip)) :=
  ⟨rfl, c3_strip_full_walk_path c1wCfg fsEmpty c3wEntries c3wSt rfl⟩

/-- C6 counterexample: under the Oldest policy the running timestamp is
initialized to the far-future sentinel 2 ^ 40 seconds after the epoch,
which is strictly greater than the representable instant epoch zero, so it
is not the minimum possible instant the claim states. -/
theorem c6_counterexample :
    (initState c1wCfg fsEmpty).datetime = tsOfParts ((2 : Int) ^ (40 : Nat)) 0 ∧
    c1wCfg.policy = AgePolicy.oldest ∧
    tsOfParts 0 0 < (initState c1wCfg fsEmpty).datetime := by
  exact ⟨rfl, rfl, by decide⟩

/-- C6 as amended: at traversal start, and again after every flush at a
directory entry of depth at most 2, the running timestamp is set to the
policy sentinel, which is the far-future instant 2 ^ 40 seconds after the
epoch under Oldest and Default and epoch zero under Newest. -/
theorem c6_sentinel_init_and_reset (cfg : Config) (fs : FS)
    (st st1 : PState) (e : Entry)
    (hk : e.kind = EntryKind.dir) (hd : e.depth ≤ 2)
    (hs : stepEntry cfg st e = Except.ok st1) :
    (initState cfg fs).datetime = sentinel cfg.policy ∧
    st1.datetime = sentinel cfg.policy ∧
    sentinel AgePolicy.newest = tsOfParts 0 0 ∧
    sentinel AgePolicy.oldest = tsOfParts ((2 : Int) ^ (40 : Nat)) 0 ∧
    sentinel AgePolicy.default = sentinel AgePolicy.oldest := by
  refine ⟨rfl, ?_, rfl, rfl, rfl⟩
  rw [stepEntry_dir_flush cfg st e hk hd] at hs
  injection hs with h2
  rw [← h2]
  simp [flushState]

/-- C6 witness: a flush step at the root directory entry resets the
datetime of a state whose datetime was 5 back to the Oldest sentinel. -/
theorem c6_sentinel_witness :
    (Entry.mk ["a"] 0 EntryKind.dir none).kind = EntryKind.dir ∧
    (Entry.mk ["a"] 0 EntryKind.dir none).depth ≤ 2 ∧
    stepEntry c1wCfg (observeState c1wCfg (initState c1wCfg fsEmpty)
        (Entry.mk ["a", "x.txt"] 1 EntryKind.file (some 5)) 5)
        (Entry.mk ["a"] 0 EntryKind.dir none) =
      Except.ok (flushState c1wCfg (observeState c1wCfg
        (initState c1wCfg fsEmpty)
        (Entry.mk ["a", "x.txt"] 1 EntryKind.file (some 5)) 5)) ∧
    ((initState c1wCfg fsEmpty).datetime = sentinel c1wCfg.policy ∧
     (flushState c1wCfg (observeState c1wCfg (initState c1wCfg fsEmpty)
        (Entry.mk ["a", "x.txt"] 1 EntryKind.file (some 5)) 5)).datetime =
       sentinel c1wCfg.policy ∧
     sentinel AgePolicy.newest = tsOfParts 0 0 ∧
     sentinel AgePolicy.oldest = tsOfParts ((2 : Int) ^ (40 : Nat)) 0 ∧
     sentinel AgePolicy.default = sentinel AgePolicy.oldest) :=
  ⟨rfl, by decide, rfl,
    c6_sentinel_init_and_reset c1wCfg fsEmpty
      (observeState c1wCfg (initState c1wCfg fsEmpty)
        (Entry.mk ["a", "x.txt"] 1 EntryKind.file (some 5)) 5)
      (flushState c1wCfg (observeState c1wCfg (initState c1wCfg fsEmpty)
        (Entry.mk ["a", "x.txt"] 1 EntryKind.file (some 5)) 5))
      (Entry.mk ["a"] 0 EntryKind.dir none) rfl (by decide) rfl⟩

/-- C7: when the embedded main returns, every root contributed exactly one
error count, processed in order to completion; the exit code is 1 iff the
sum of the per-root error counts is positive and 0 iff it is zero, and in
the positive case the total is printed to the error stream. -/
theorem c7_exit_code_aggregation (cfg : Config) (fs : FS)
    (roots : List (List Entry)) (r : MainRes)
    (h : mainRun cfg fs roots = Except.ok r) :
    r.perRootErrors.length = roots.length ∧
    r.exitCode = (if 0 < r.perRootErrors.sum then 1 else 0) ∧
    (r.exitCode = 1 ↔ 0 < r.perRootErrors.sum) ∧
    (r.exitCode = 0 ↔ r.perRootErrors.sum = 0) ∧
    r.stderrLines =
      (if 0 < r.perRootErrors.sum then [totalLine r.perRootErrors.sum]
       else []) := by
  unfold mainRun at h
  cases h1 : runRoots cfg fs roots with
  | error p =>
      rw [h1] at h
      exact Except.noConfusion h
  | ok trip =>
      obtain ⟨fs2, errs, pr⟩ := trip
      rw [h1] at h
      injection h with h2
      subst h2
      refine ⟨runRoots_length cfg roots fs fs2 errs pr h1, rfl, ?_, ?_, rfl⟩
      · by_cases hp : 0 < errs.sum <;> simp [hp]
      · by_cases hp : 0 < errs.sum <;> simp [hp] <;> omega

/-- C7 witness: one root whose single move fails, giving per-root errors
[1], exit code 1 and the total printed to the error stream. -/
theorem c7_exit_witness :
    mainRun c7wCfg fsEmpty c7wRoots = Except.ok c7wRes ∧
    (c7wRes.perRootErrors.length = c7wRoots.length ∧
     c7wRes.exitCode = (if 0 < c7wRes.perRootErrors.sum then 1 else 0) ∧
     (c7wRes.exitCode = 1 ↔ 0 < c7wRes.perRootErrors.sum) ∧
     (c7wRes.exitCode = 0 ↔ c7wRes.perRootErrors.sum = 0) ∧
     c7wRes.stderrLines =
       (if 0 < c7wRes.perRootErrors.sum then [totalLine c7wRes.perRootErrors.sum]
        else [])) :=
  ⟨rfl, c7_exit_code_aggregation c7wCfg fsEmpty c7wRoots c7wRes rfl⟩

/-- C4 witness: a batch whose first move collides with the existing file
o/1970/x, followed by one more pending move, records one error for the
collision and still processes the rest of the batch, with the files of the
filesystem unchanged by the collision. -/
theorem c4_conflict_witness :
    c4wFS.fileExists (["o"] ++ [yearComp 0] ++ ["x"]) = true ∧
    (move_batch c4wFS [(["s"], ["x"]), (["s2"], ["y"])] 0 ["o"] false false =
      ((move_batch (c4wFS.createDirAll
          (((["o"] : FPath) ++ [yearComp 0] ++ ["x"]).dropLast))
          [(["s2"], ["y"])] 0 ["o"] false false).1,
       ((["s"] : FPath), (["o"] : FPath) ++ [yearComp 0] ++ ["x"]) ::
         (move_batch (c4wFS.createDirAll
           (((["o"] : FPath) ++ [yearComp 0] ++ ["x"]).dropLast))
           [(["s2"], ["y"])] 0 ["o"] false false).2.1,
       1 + (move_batch (c4wFS.createDirAll
           (((["o"] : FPath) ++ [yearComp 0] ++ ["x"]).dropLast))
           [(["s2"], ["y"])] 0 ["o"] false false).2.2) ∧
     (c4wFS.createDirAll
       (((["o"] : FPath) ++ [yearComp 0] ++ ["x"]).dropLast)).files =
         c4wFS.files) :=
  ⟨by decide,
    c4_conflict_error_and_continue c4wFS ["s"] ["x"] [(["s2"], ["y"])] 0 ["o"]
      (by decide)⟩

/-- C9 witness: moving s onto the existing destination o/1970/x without
force creates the parent chain of o/1970 and only then fails with the
already-exists error, leaving the files untouched. -/
theorem c9_dirs_witness :
    ((["o", "1970", "x"] : FPath) ≠ []) ∧
    c4wFS.fileExists ["o", "1970", "x"] = true ∧
    (move_single_file c4wFS ["s"] ["o", "1970", "x"] false =
      (c4wFS.createDirAll (["o", "1970", "x"] : FPath).dropLast,
       Except.error IoErr.alreadyExists) ∧
     (∀ q ∈ ancestors (["o", "1970", "x"] : FPath).dropLast,
       q ∈ (c4wFS.createDirAll (["o", "1970", "x"] : FPath).dropLast).dirs) ∧
     (c4wFS.createDirAll (["o", "1970", "x"] : FPath).dropLast).files =
       c4wFS.files) :=
  ⟨by decide, by decide,
    c9_dirs_created_before_conflict_check c4wFS ["s"] ["o", "1970", "x"]
      (by decide) (by decide)⟩

end OrgMtime
